import Mathlib

/-!
Shallow embedding of the ActorThread active-object runtime
(include/sys++/ActorThread.hpp) and proofs about the claims of its
specification.

Conventions of the embedding:
* steady-clock time points and durations are natural numbers;
* the heterogeneous timer machinery of the source (std::set of shared_ptr
  to ActorTimer, per payload-type std::map of weak_ptr) is modelled by an
  explicit store of timer records addressed by numeric ids: the set holds
  ids (strong references), the map holds ids (weak references), and a
  `firing` field records the strong reference kept by a dispatcher frame
  while a timer event is being delivered;
* std::map lookup uses the payload comparator the way std::map does: two
  keys denote the same entry iff neither is less than the other;
* user handler code (the bodies of onMessage / timer event callbacks) is a
  parameter of the functions that invoke it.
-/

namespace ActorThread

/-- Timer cycle mode, source enum class TimerCycle. -/
inductive TimerCycle where
  | Periodic : TimerCycle
  | OneShot : TimerCycle
deriving DecidableEq

/-- One timer record: the data members of ActorTimer plus those of
ActorAlarm (event callback and payload). -/
structure AlarmRec (α ε : Type) where
  event : ε
  payload : α
  lapse : Nat
  cycle : TimerCycle
  deadline : Nat
  shoot : Bool
deriving DecidableEq

/-- ActorTimer::reset(bool incremental). Non-incremental: deadline is
recomputed from now. Incremental: deadline += lapse, and when the advanced
deadline is still in the past it is snapped to now + lapse. Always clears
the shoot flag. -/
def resetRec (r : AlarmRec α ε) (incremental : Bool) (now : Nat) : AlarmRec α ε :=
  let d0 := if incremental then r.deadline else now
  let d1 := d0 + r.lapse
  let d2 := if incremental && decide (d1 < now) then now + r.lapse else d1
  { r with deadline := d2, shoot := false }

/-- Key equivalence as std::map sees it through its comparator: neither key
is less than the other. -/
def equivKey (lt : α → α → Bool) (a b : α) : Bool :=
  !lt a b && !lt b a

/-- Lookup in the payload-to-timer map (std::map::find over the
comparator). -/
def mapFind (lt : α → α → Bool) : List (α × Nat) → α → Option Nat
  | [], _ => none
  | (k, v) :: rest, p => if equivKey lt p k then some v else mapFind lt rest p

/-- Erase every entry whose key is comparator-equivalent to p (for a map
with unique keys this removes the single entry found). -/
def mapErase (lt : α → α → Bool) (m : List (α × Nat)) (p : α) : List (α × Nat) :=
  m.filter (fun kv => !equivKey lt p kv.1)

/-- Number of map entries whose key is comparator-equivalent to p: the
measure in which the one-timer-per-payload invariant is stated. -/
def countEquivKeys (lt : α → α → Bool) (m : List (α × Nat)) (p : α) : Nat :=
  (m.filter (fun kv => equivKey lt p kv.1)).length

/-- Lookup of a timer record by id in the store of live records. -/
def storeFind : List (Nat × AlarmRec α ε) → Nat → Option (AlarmRec α ε)
  | [], _ => none
  | (k, v) :: rest, tid => if k == tid then some v else storeFind rest tid

/-- Overwrite the record stored under an id (the id must already be
present; absent ids are left untouched). -/
def storeSet : List (Nat × AlarmRec α ε) → Nat → AlarmRec α ε →
    List (Nat × AlarmRec α ε)
  | [], _, _ => []
  | kv :: rest, tid, r =>
    if kv.1 == tid then (tid, r) :: rest else kv :: storeSet rest tid r

/-- Destroy the record stored under an id (shared_ptr reference count
reached zero). -/
def storeRemove (st : List (Nat × AlarmRec α ε)) (tid : Nat) :
    List (Nat × AlarmRec α ε) :=
  st.filter (fun kv => kv.1 != tid)

/-- Set-insert of a timer id into the ordered timer set. -/
def setInsert (tid : Nat) (l : List Nat) : List Nat :=
  if l.contains tid then l else tid :: l

/-- Set-erase of a timer id from the ordered timer set. -/
def setErase (tid : Nat) (l : List Nat) : List Nat :=
  l.filter (fun x => x != tid)

/-- The timer state of one actor: the record store, the payload map
(weak references), the deadline-ordered set of pending timers (strong
references), the strong reference held by a dispatcher frame while a timer
is being delivered, and a fresh-id counter. -/
structure TimerSys (α ε : Type) where
  store : List (Nat × AlarmRec α ε)
  tmap : List (α × Nat)
  tset : List Nat
  firing : Option Nat
  nextId : Nat
deriving DecidableEq

/-- ActorThread::timerStart(payload, lapse, event, cycle). A payload not
yet in the map allocates a fresh timer and emplaces it; a payload already
in the map reprograms that same timer in place: it is erased from the
ordered set, its event, lapse and cycle are replaced, reset(false)
recomputes its deadline, and it is reinserted. -/
def timerStart (lt : α → α → Bool) (s : TimerSys α ε) (p : α) (lapse : Nat)
    (ev : ε) (cycle : TimerCycle) (now : Nat) : TimerSys α ε :=
  match mapFind lt s.tmap p with
  | none =>
    let tid := s.nextId
    let r : AlarmRec α ε :=
      { event := ev, payload := p, lapse := lapse, cycle := cycle,
        deadline := now + lapse, shoot := false }
    { s with store := (tid, r) :: s.store,
             tmap := (p, tid) :: s.tmap,
             tset := setInsert tid s.tset,
             nextId := tid + 1 }
  | some tid =>
    match storeFind s.store tid with
    | none => s
    | some r =>
      let r1 := resetRec { r with event := ev, lapse := lapse, cycle := cycle } false now
      { s with store := storeSet s.store tid r1,
               tset := setInsert tid (setErase tid s.tset) }

/-- ActorThread::timerReschedule: erase the timer from the ordered set,
reset it, and reinsert it at its new position. -/
def timerReschedule (s : TimerSys α ε) (tid : Nat) (incremental : Bool)
    (now : Nat) : TimerSys α ε :=
  match storeFind s.store tid with
  | none => s
  | some r =>
    { s with store := storeSet s.store tid (resetRec r incremental now),
             tset := setInsert tid (setErase tid s.tset) }

/-- ActorThread::timerReset(payload): when the payload has a timer,
reschedule it non-incrementally (deadline becomes now + lapse). -/
def timerReset (lt : α → α → Bool) (s : TimerSys α ε) (p : α) (now : Nat) :
    TimerSys α ε :=
  match mapFind lt s.tmap p with
  | none => s
  | some tid => timerReschedule s tid false now

/-- ActorThread::timerStop(payload): remove the timer from the ordered set
and from the map; when a dispatcher frame still holds a strong reference
(use_count > 1, i.e. the timer is currently firing) the record survives
and reset(false) clears its shoot flag to signal the dispatcher, otherwise
the record is destroyed. -/
def timerStop (lt : α → α → Bool) (s : TimerSys α ε) (p : α) (now : Nat) :
    TimerSys α ε :=
  match mapFind lt s.tmap p with
  | none => s
  | some tid =>
    let s1 := { s with tset := setErase tid s.tset, tmap := mapErase lt s.tmap p }
    if s1.firing == some tid then
      match storeFind s1.store tid with
      | none => s1
      | some r => { s1 with store := storeSet s1.store tid (resetRec r false now) }
    else
      { s1 with store := storeRemove s1.store tid }

/-- Release of the dispatcher-frame strong reference after a timer
delivery: when the timer is no longer in the ordered set its reference
count reaches zero and the record is destroyed. -/
def releaseFiring (s : TimerSys α ε) (tid : Nat) : TimerSys α ε :=
  { s with firing := none,
           store := if s.tset.contains tid then s.store else storeRemove s.store tid }

/-- The first half of ActorAlarm::deliverTo: the shoot flag of the firing
timer is set, then the event callback runs on the payload (runEvent
embodies the user callback, which may touch this very timer); the
dispatcher frame holds its strong reference throughout, so the firing mark
persists whatever the callback did. -/
def afterEvent (runEvent : ε → α → TimerSys α ε → TimerSys α ε)
    (s : TimerSys α ε) (tid : Nat) (r : AlarmRec α ε) : TimerSys α ε :=
  { runEvent r.event r.payload
      { s with store := storeSet s.store tid { r with shoot := true },
               firing := some tid } with
    firing := some tid }

/-- ActorAlarm::deliverTo: set shoot, invoke the event callback with the
payload, then honor the shoot flag: still set means a OneShot timer is
stopped and a Periodic one is rescheduled incrementally; cleared means the
callback already stopped or restarted the timer and nothing more is done.
Finally the dispatcher frame drops its strong reference. -/
def alarmDeliverTo (lt : α → α → Bool)
    (runEvent : ε → α → TimerSys α ε → TimerSys α ε)
    (s : TimerSys α ε) (tid : Nat) (now : Nat) : TimerSys α ε :=
  match storeFind s.store tid with
  | none => s
  | some r =>
    let s2 : TimerSys α ε := afterEvent runEvent s tid r
    let s3 : TimerSys α ε :=
      match storeFind s2.store tid with
      | none => s2
      | some r2 =>
        if r2.shoot then
          if r2.cycle == TimerCycle.OneShot then timerStop lt s2 r2.payload now
          else timerReschedule s2 tid true now
        else s2
    releaseFiring s3 tid

/-- Thread ownership check of ActorThread::timerEvents: any access to the
per-thread timer storage from a thread other than the owning thread throws
std::runtime_error. -/
def timerAccessCheck (ownerId currentId : Nat) : Except String Unit :=
  if ownerId != currentId then
    Except.error "timer setup outside its owning thread"
  else Except.ok ()

/-- timerStart as invoked through timerEvents: the thread check runs
first. -/
def timerStartChecked (ownerId currentId : Nat) (lt : α → α → Bool)
    (s : TimerSys α ε) (p : α) (lapse : Nat) (ev : ε) (cycle : TimerCycle)
    (now : Nat) : Except String (TimerSys α ε) :=
  match timerAccessCheck ownerId currentId with
  | Except.error e => Except.error e
  | Except.ok _ => Except.ok (timerStart lt s p lapse ev cycle now)

/-- timerReset as invoked through timerEvents. -/
def timerResetChecked (ownerId currentId : Nat) (lt : α → α → Bool)
    (s : TimerSys α ε) (p : α) (now : Nat) : Except String (TimerSys α ε) :=
  match timerAccessCheck ownerId currentId with
  | Except.error e => Except.error e
  | Except.ok _ => Except.ok (timerReset lt s p now)

/-- timerStop as invoked through timerEvents. -/
def timerStopChecked (ownerId currentId : Nat) (lt : α → α → Bool)
    (s : TimerSys α ε) (p : α) (now : Nat) : Except String (TimerSys α ε) :=
  match timerAccessCheck ownerId currentId with
  | Except.error e => Except.error e
  | Except.ok _ => Except.ok (timerStop lt s p now)

/-- The retry directive an actor may throw while processing a message. -/
structure DispatchRetry where
  retryInterval : Nat
deriving DecidableEq

/-- DispatchRetry::operator<: always false, which makes every two
DispatchRetry values comparator-equivalent and enforces a single instance
in the timer containers. -/
def dispatchRetryLt (_a _b : DispatchRetry) : Bool := false

/-! The dispatcher loop (ActorThread::eventsLoop, ::post,
::handleActorEvents). Parcels are abstract tokens; what a user handler
does on delivery is a parameter (an oracle) of the loop. In this part of
the model the timer set is reduced to what the loop observes of it: a list
of (id, deadline) pairs, with the full per-timer semantics modelled above.
The DispatchRetry timer installed by the catch handler keeps a single
instance (its comparator is constant false, see dispatchRetryLt); it is
represented by the reserved id retryTimerId. -/

/-- A mailbox parcel (type-erased in the source; an abstract token here). -/
abbrev Parcel := Nat

/-- The actor state visible to user handlers: the two mailboxes, the pause
flag, the dispatching flag, the pending timers (id, deadline), the clock,
and the count of onWaitingEvents notifications issued to producers or to
an external dispatcher. -/
structure Core where
  high : List Parcel
  norm : List Parcel
  paused : Bool
  dispatching : Bool
  timers : List (Nat × Nat)
  now : Nat
  signals : Nat
deriving DecidableEq

/-- ActorThread::post running on a producer thread: nothing is stored once
dispatching stopped; the parcel is appended to the chosen mailbox; a
high-priority post clears the paused flag; a post into a previously empty
mailbox notifies the consumer (onWaitingEvents). -/
def postC (highPri : Bool) (c : Core) (m : Parcel) : Core :=
  if !c.dispatching then c
  else
    let wasIdle := (if highPri then c.high else c.norm).isEmpty
    let c1 := if highPri then { c with high := c.high ++ [m], paused := false }
              else { c with norm := c.norm ++ [m] }
    if wasIdle then { c1 with signals := c1.signals + 1 } else c1

/-- Channel built by ActorThread::getChannel: it captures a weak_ptr to
the target, so invoking it after the target is gone (the weak_ptr no
longer locks) does nothing. -/
def channelInvoke (highPri : Bool) (target : Option Core) (m : Parcel) :
    Option Core :=
  match target with
  | none => none
  | some c => some (postC highPri c m)

/-- Gateway::operator(): send through the stored weak handle when it still
locks, otherwise do nothing (normal priority, as Gateway uses send with
HighPri = false). -/
def gatewaySend (target : Option Core) (m : Parcel) : Option Core :=
  match target with
  | none => none
  | some c => some (postC false c m)

/-- The mailbox the dispatcher iteration selected. -/
inductive WhichQueue where
  | highQ : WhichQueue
  | normQ : WhichQueue
deriving DecidableEq

/-- The queue selection at the top of each dispatcher iteration: messages
are consumed only when the queues are not paused and one of them is
non-empty, the high-priority queue being chosen whenever it is non-empty. -/
def iterationSelect (c : Core) : Option WhichQueue :=
  if !c.paused && (!c.high.isEmpty || !c.norm.isEmpty) then
    some (if !c.high.isEmpty then WhichQueue.highQ else WhichQueue.normQ)
  else none

/-- The selected mailbox contents. -/
def queueOf (q : WhichQueue) (c : Core) : List Parcel :=
  match q with
  | WhichQueue.highQ => c.high
  | WhichQueue.normQ => c.norm

/-- Pop the front of the selected mailbox. -/
def popQueue (q : WhichQueue) (c : Core) : Core :=
  match q with
  | WhichQueue.highQ => { c with high := c.high.tail }
  | WhichQueue.normQ => { c with norm := c.norm.tail }

/-- The effect of one message delivery (msg->deliverTo(runnable)): user
code transforms the actor state and may in addition throw DispatchRetry
with a wait interval. The loop is proved against every such oracle. -/
structure DeliverOracle where
  deliverMsg : Parcel → Core → Core × Option Nat
  deliverTimer : Nat → Core → Core

/-- The reserved id of the single DispatchRetry retry timer. -/
def retryTimerId : Nat := 0

/-- Effect of the catch (const DispatchRetry&) handler: install (or
reprogram, the constant-false comparator keeps one instance) the retry
timer at now + interval and pause the normal mailbox. -/
def installRetry (c : Core) (interval : Nat) : Core :=
  { c with timers := (retryTimerId, c.now + interval) ::
                       c.timers.filter (fun t => t.1 != retryTimerId),
           paused := true }

/-- Delivery of a due timer by the dispatcher. The retry timer runs
retryMbox (clears the pause) and, being OneShot, removes itself; any other
timer is user code, an oracle of the loop. -/
def deliverTimerStep (o : DeliverOracle) (c : Core) (t : Nat × Nat) : Core :=
  if t.1 == retryTimerId then
    { c with paused := false,
             timers := c.timers.filter (fun u => u.1 != retryTimerId) }
  else o.deliverTimer t.1 c

/-- The least element of the timer set as std::set orders it: by deadline,
ties broken by identity. -/
def timerPairLt (a b : Nat × Nat) : Bool :=
  a.2 < b.2 || (a.2 == b.2 && a.1 < b.1)

/-- timers.cbegin(): the pending timer with the least (deadline, id). -/
def firstTimer : List (Nat × Nat) → Option (Nat × Nat)
  | [] => none
  | t :: ts =>
    match firstTimer ts with
    | none => some t
    | some u => if timerPairLt t u then some t else some u

/-- The loop state around Core: the burst counter (a uint16_t in the
source), whether an external dispatcher owns the thread, and the local
mustDispatch flag of eventsLoop. -/
structure LoopSt where
  core : Core
  burst : Nat
  external : Bool
  mustDispatch : Bool
deriving DecidableEq

/-- How the message-consuming inner while loop ended. -/
inductive InnerRes where
  | skipped : InnerRes
  | emptied : InnerRes
  | retried : InnerRes
  | burstBreak : InnerRes
  | fuelOut : InnerRes
deriving DecidableEq

/-- Result of the consume phase: the new state, the accumulated trace of
delivered mailbox parcels, and how the inner loop ended. -/
structure ConsumeOut where
  st : LoopSt
  trace : List Parcel
  res : InnerRes
deriving DecidableEq

/-- The inner consuming while loop of eventsLoop: deliver the front parcel
of the selected mailbox, pop it, and count it in burst; every 64th
delivery breaks out to look at the timers, additionally requesting a
resume (onWaitingEvents) and ending the dispatch batch when an external
dispatcher owns the thread. A thrown DispatchRetry leaves the parcel in
place, installs the retry timer and pauses the normal mailbox. -/
def innerConsume (o : DeliverOracle) (fuel : Nat) (q : WhichQueue)
    (s : LoopSt) (trace : List Parcel) : ConsumeOut :=
  match fuel with
  | 0 => ⟨s, trace, InnerRes.fuelOut⟩
  | fuel1 + 1 =>
    match queueOf q s.core with
    | [] => ⟨s, trace, InnerRes.emptied⟩
    | m :: _ =>
      let d := o.deliverMsg m s.core
      match d.2 with
      | some interval =>
        ⟨{ s with core := installRetry d.1 interval }, trace, InnerRes.retried⟩
      | none =>
        let c2 := popQueue q d.1
        let b := (s.burst + 1) % 65536
        let s2 : LoopSt := { s with core := c2, burst := b }
        if b % 64 == 0 then
          if s.external then
            ⟨{ s2 with core := { c2 with signals := c2.signals + 1 },
                       mustDispatch := false }, trace ++ [m], InnerRes.burstBreak⟩
          else ⟨s2, trace ++ [m], InnerRes.burstBreak⟩
        else innerConsume o fuel1 q s2 (trace ++ [m])

/-- The consume phase of one dispatcher iteration: run the inner loop on
the selected mailbox, if any. -/
def consumePhase (o : DeliverOracle) (s : LoopSt) (trace : List Parcel) :
    ConsumeOut :=
  match iterationSelect s.core with
  | some q => innerConsume o 64 q s trace
  | none => ⟨s, trace, InnerRes.skipped⟩

/-- Outcome of the timer phase of one dispatcher iteration. -/
inductive TimerPhaseRes where
  | advance : Core → TimerPhaseRes
  | exitNone : TimerPhaseRes
  | exitSome : Nat → TimerPhaseRes
  | waitMsg : TimerPhaseRes
  | waitUntil : Nat → TimerPhaseRes
deriving DecidableEq

/-- The timer phase of one dispatcher iteration. No pending timer: with
both mailboxes empty the thread either hands control back to the external
dispatcher (no timer wait pending) or blocks for incoming messages. A
pending timer: when due it is delivered, otherwise with nothing else to do
the thread either hands back the remaining duration until that deadline or
blocks until it. -/
def timerPhase (o : DeliverOracle) (ext : Bool) (c : Core) : TimerPhaseRes :=
  match firstTimer c.timers with
  | none =>
    if c.norm.isEmpty && c.high.isEmpty && c.dispatching then
      if ext then TimerPhaseRes.exitNone else TimerPhaseRes.waitMsg
    else TimerPhaseRes.advance c
  | some t =>
    if c.now ≥ t.2 then TimerPhaseRes.advance (deliverTimerStep o c t)
    else if c.dispatching && c.high.isEmpty && (c.norm.isEmpty || c.paused) then
      if ext then TimerPhaseRes.exitSome (t.2 - c.now)
      else TimerPhaseRes.waitUntil t.2
    else TimerPhaseRes.advance c

/-- How eventsLoop gave back control. finished carries the returned pair:
some duration means haveTimerLapse was true. The blocked variants mark the
condition-variable waits of the thread-owning mode, which a pure embedding
renders as distinguished outcomes. -/
inductive LoopExit where
  | finished : Option Nat → LoopExit
  | blockedMsg : LoopExit
  | blockedUntil : Nat → LoopExit
  | fuelOut : LoopExit
deriving DecidableEq

/-- Result of eventsLoop: final state, trace of delivered mailbox parcels,
and the way out. -/
structure LoopOut where
  st : LoopSt
  trace : List Parcel
  exit : LoopExit
deriving DecidableEq

/-- ActorThread::eventsLoop: while dispatching and mustDispatch, run the
consume phase then the timer phase; the timer phase either lets the loop
continue, ends it returning the (haveTimerLapse, timerLapse) pair, or
blocks. Fuel bounds the number of iterations of the pure model. -/
def eventsLoop (o : DeliverOracle) (fuel : Nat) (s : LoopSt)
    (trace : List Parcel) : LoopOut :=
  match fuel with
  | 0 => ⟨s, trace, LoopExit.fuelOut⟩
  | fuel1 + 1 =>
    if s.core.dispatching && s.mustDispatch then
      match timerPhase o (consumePhase o s trace).st.external
          (consumePhase o s trace).st.core with
      | TimerPhaseRes.advance c1 =>
        eventsLoop o fuel1 { (consumePhase o s trace).st with core := c1 }
          (consumePhase o s trace).trace
      | TimerPhaseRes.exitNone =>
        ⟨(consumePhase o s trace).st, (consumePhase o s trace).trace,
         LoopExit.finished none⟩
      | TimerPhaseRes.exitSome d =>
        ⟨(consumePhase o s trace).st, (consumePhase o s trace).trace,
         LoopExit.finished (some d)⟩
      | TimerPhaseRes.waitMsg =>
        ⟨(consumePhase o s trace).st, (consumePhase o s trace).trace,
         LoopExit.blockedMsg⟩
      | TimerPhaseRes.waitUntil t =>
        ⟨(consumePhase o s trace).st, (consumePhase o s trace).trace,
         LoopExit.blockedUntil t⟩
    else ⟨s, trace, LoopExit.finished none⟩

/-- What handleActorEvents asks of the external dispatcher on return. -/
inductive ExtRequest where
  | rearm : Nat → ExtRequest
  | cancel : ExtRequest
deriving DecidableEq

/-- ActorThread::handleActorEvents: run eventsLoop and translate its
returned pair into a delayed-invocation request (onWaitingTimer with the
duration) or a cancellation (onWaitingTimerCancel). -/
def handleActorEvents (o : DeliverOracle) (fuel : Nat) (s : LoopSt) :
    ExtRequest :=
  match (eventsLoop o fuel { s with mustDispatch := true } []).exit with
  | LoopExit.finished (some d) => ExtRequest.rearm d
  | _ => ExtRequest.cancel

/-! Lifecycle: ActorThread::stop. -/

/-- The lifecycle state observed by stop: the flags and exit code of the
actor plus counters recording how often the pieces of the shutdown
protocol ran and the sizes of the containers it clears. -/
structure LifeState where
  dispatching : Bool
  detached : Bool
  joinable : Bool
  exitCode : Int
  stoppingCalls : Nat
  joinCalls : Nat
  timersCount : Nat
  normCount : Nat
  highCount : Nat
deriving DecidableEq

/-- ActorThread::stop(bool forced): selfCall tells whether the caller runs
on the wrapped thread itself. A self-call only acts when forced by the
deleter (detach, stop dispatching, onStopping) and always reports false; a
call from another thread reports true immediately when dispatching already
stopped, and otherwise runs the shutdown protocol: stop dispatching,
notify, onStopping, and (when the thread came from create) join and clear
the timer set and both mailboxes. -/
def stopB (selfCall forced : Bool) (s : LifeState) : Bool × LifeState :=
  if selfCall then
    if forced && s.dispatching then
      let s1 := if s.joinable then { s with joinable := false, detached := true } else s
      (false, { s1 with dispatching := false, stoppingCalls := s1.stoppingCalls + 1 })
    else (false, s)
  else
    if !s.dispatching then (true, s)
    else
      let s1 := { s with dispatching := false }
      let fromCreate := s1.joinable
      let s2 := { s1 with stoppingCalls := s1.stoppingCalls + 1 }
      if !fromCreate then (true, s2)
      else (true, { s2 with joinCalls := s2.joinCalls + 1, joinable := false,
                            timersCount := 0, normCount := 0, highCount := 0 })

/-- ActorThread::stop(int code): run stop(false) and, when it reports a
proper stop, store the exit code for run(). -/
def stopCode (selfCall : Bool) (code : Int) (s : LifeState) : LifeState :=
  let r := stopB selfCall false s
  if r.1 then { r.2 with exitCode := code } else r.2

/-! Publish / subscribe plane. -/

/-- ActorThread::publish: read the per-thread per-type callback slot and
forward the value through it when one is bound; an unbound slot drops the
value. The some/none result makes the invocation observable. -/
def publish {α β : Type} (bearer : Option (α → β)) (msg : α) : Option β :=
  match bearer with
  | none => none
  | some f => some (f msg)

/-! Concrete instantiations used to exercise the theorems below. -/

/-- Strict order on natural payloads, a concrete comparator. -/
def natLtB (a b : Nat) : Bool := decide (a < b)

/-- A timer system with no timers. -/
def emptyTimerSysN : TimerSys Nat Nat := ⟨[], [], [], none, 1⟩

/-- A freshly created, still dispatching actor as stop sees it. -/
def runningLifeState : LifeState := ⟨true, false, true, 0, 0, 0, 0, 0, 0⟩

/-- The same kind of actor after its shutdown completed with code 3. -/
def stoppedLifeState : LifeState := ⟨false, false, false, 3, 1, 1, 0, 0, 0⟩

/-- A core whose dispatching already ended. -/
def frozenCore : Core := ⟨[], [], false, false, [], 0, 0⟩

/-- An oracle whose handlers leave the actor state unchanged. -/
def idleOracle : DeliverOracle := ⟨fun _ c => (c, none), fun _ c => c⟩

/-- A concrete periodic alarm record. -/
def sampleAlarmRec : AlarmRec Nat Nat :=
  { event := 0, payload := 5, lapse := 10, cycle := TimerCycle.Periodic,
    deadline := 40, shoot := true }

/-- A timer system holding sampleAlarmRec under id 1. -/
def sampleTimerSys : TimerSys Nat Nat :=
  { store := [(1, sampleAlarmRec)], tmap := [(5, 1)], tset := [1],
    firing := none, nextId := 2 }

/-- Strict order on Bool payloads (false below true), a concrete strict
weak order whose laws are decidable by enumeration. -/
def boolLtB (a b : Bool) : Bool := !a && b

/-- A concrete one-shot alarm record keyed by a Bool payload. -/
def sampleAlarmRecB : AlarmRec Bool Nat :=
  { event := 3, payload := true, lapse := 6, cycle := TimerCycle.OneShot,
    deadline := 10, shoot := false }

/-- A timer system over Bool payloads holding sampleAlarmRecB under id 1. -/
def sampleTimerSysB : TimerSys Bool Nat :=
  { store := [(1, sampleAlarmRecB)], tmap := [(true, 1)], tset := [1],
    firing := none, nextId := 2 }

/-- A concrete DispatchRetry value. -/
def sampleRetry : DispatchRetry := ⟨7⟩

/-- A concrete retry-timer record. -/
def sampleRetryRec : AlarmRec DispatchRetry Nat :=
  { event := 9, payload := ⟨3⟩, lapse := 2, cycle := TimerCycle.Periodic,
    deadline := 10, shoot := false }

/-- A timer system already holding the single retry timer under id 1. -/
def sampleRetrySys : TimerSys DispatchRetry Nat :=
  { store := [(1, sampleRetryRec)], tmap := [(⟨3⟩, 1)], tset := [1],
    firing := none, nextId := 2 }

/-- An event callback that does not touch any timer. -/
def idleRunEvent : Nat → Nat → TimerSys Nat Nat → TimerSys Nat Nat :=
  fun _ _ s => s

/-- A concrete due one-shot alarm record. -/
def sampleOneShotRec : AlarmRec Nat Nat :=
  { event := 0, payload := 5, lapse := 6, cycle := TimerCycle.OneShot,
    deadline := 10, shoot := false }

/-- A timer system holding sampleOneShotRec under id 1. -/
def sampleOneShotSys : TimerSys Nat Nat :=
  { store := [(1, sampleOneShotRec)], tmap := [(5, 1)], tset := [1],
    firing := none, nextId := 2 }

/-- Mailbox deliveries a dispatch batch may still perform before the next
64-boundary yield: the measure in which the batch bound is stated. -/
def loopBudget (s : LoopSt) (n : Nat) : Nat :=
  if s.mustDispatch then n + (64 - s.burst % 64) else n

/-- A dispatching core with parcels in both mailboxes. -/
def highReadyCore : Core := ⟨[8, 9], [4], false, true, [], 0, 0⟩

/-- The loop state on highReadyCore under an external dispatcher. -/
def highReadyLoopSt : LoopSt := ⟨highReadyCore, 0, true, true⟩

/-- A core paused for retry, its retry timer pending. -/
def pausedRetryCore : Core := ⟨[], [4], true, true, [(0, 50)], 10, 0⟩

/-- A dispatching core with only normal-priority parcels. -/
def normReadyCore : Core := ⟨[], [4], false, true, [], 0, 0⟩

/-- A quiescent external-mode core waiting on one future timer. -/
def timerWaitCore : Core := ⟨[], [], false, true, [(1, 50)], 10, 0⟩

/-- The loop state on timerWaitCore under an external dispatcher. -/
def timerWaitLoopSt : LoopSt := ⟨timerWaitCore, 0, true, true⟩

/-- A core whose single timer is due. -/
def dueTimerCore : Core := ⟨[], [], false, true, [(1, 5)], 10, 0⟩

/-! Theorems. Helper lemmas about the container operations come first,
then one theorem (plus witness or counterexample) per specification
claim. -/

/-- Overwriting an id present in the store makes lookup return the new
record. -/
theorem storeFind_storeSet_self {α ε : Type} (st : List (Nat × AlarmRec α ε))
    (tid : Nat) (r0 r1 : AlarmRec α ε) (h : storeFind st tid = some r0) :
    storeFind (storeSet st tid r1) tid = some r1 := by
  induction st with
  | nil => simp [storeFind] at h
  | cons kv rest ih =>
    obtain ⟨k, v⟩ := kv
    cases hk : (k == tid) with
    | true => simp [storeFind, storeSet, hk]
    | false =>
      simp only [storeFind, hk, Bool.false_eq_true, if_false] at h
      simp only [storeSet, hk, Bool.false_eq_true, if_false]
      simp only [storeFind, hk, Bool.false_eq_true, if_false]
      exact ih h

/-- Inserting an id into the timer set makes it a member. -/
theorem setInsert_mem (tid : Nat) (l : List Nat) : tid ∈ setInsert tid l := by
  simp only [setInsert]
  split <;> simp_all

/-- C9: publish invoked with no callback bound in the calling thread's
slot is a silent no-op (the value is dropped, nothing is signalled), and
with a callback bound it invokes exactly that callback with the value. -/
theorem publish_unbound_noop_bound_invokes {α β : Type} (f : α → β) (m : α) :
    publish (α := α) (β := β) none m = none ∧ publish (some f) m = some (f m) :=
  ⟨rfl, rfl⟩

/-- C7: a post to an actor that has begun shutdown stores nothing and
raises nothing (the state is returned unchanged, no notification is
issued), and a channel invocation or Gateway call whose weak handle no
longer locks a target is a silent no-op. -/
theorem shutdown_race_silent_noop (hp : Bool) (c : Core) (m : Parcel)
    (h : c.dispatching = false) :
    postC hp c m = c ∧ channelInvoke hp none m = none ∧
    gatewaySend none m = none := by
  refine ⟨?_, rfl, rfl⟩
  simp [postC, h]

/-- Witness for shutdown_race_silent_noop at a concrete dead actor. -/
theorem shutdown_race_silent_noop_witness :
    postC true frozenCore 7 = frozenCore ∧ channelInvoke true none 7 = none ∧
    gatewaySend none 7 = none :=
  shutdown_race_silent_noop true frozenCore 7 rfl

/-- C6: every timer operation (timerStart, timerReset, timerStop) invoked
from a thread other than the owning thread fails with the hard fault of
the timerEvents thread check; none of them is a silent no-op. -/
theorem timer_ops_wrong_thread_fault {α ε : Type} (ownerId currentId : Nat)
    (lt : α → α → Bool) (s : TimerSys α ε) (p : α) (lapse : Nat) (ev : ε)
    (cy : TimerCycle) (now : Nat) (h : ownerId ≠ currentId) :
    timerStartChecked ownerId currentId lt s p lapse ev cy now =
      Except.error "timer setup outside its owning thread" ∧
    timerResetChecked ownerId currentId lt s p now =
      Except.error "timer setup outside its owning thread" ∧
    timerStopChecked ownerId currentId lt s p now =
      Except.error "timer setup outside its owning thread" := by
  have hc : timerAccessCheck ownerId currentId =
      Except.error "timer setup outside its owning thread" := by
    simp [timerAccessCheck, h]
  exact ⟨by simp [timerStartChecked, hc], by simp [timerResetChecked, hc],
         by simp [timerStopChecked, hc]⟩

/-- Witness for timer_ops_wrong_thread_fault: owner thread 1, caller
thread 2. -/
theorem timer_ops_wrong_thread_fault_witness :
    timerStartChecked 1 2 natLtB emptyTimerSysN 5 10 0 TimerCycle.OneShot 0 =
      Except.error "timer setup outside its owning thread" ∧
    timerResetChecked 1 2 natLtB emptyTimerSysN 5 0 =
      Except.error "timer setup outside its owning thread" ∧
    timerStopChecked 1 2 natLtB emptyTimerSysN 5 0 =
      Except.error "timer setup outside its owning thread" :=
  timer_ops_wrong_thread_fault 1 2 natLtB emptyTimerSysN 5 10 0
    TimerCycle.OneShot 0 (by decide)

/-- C5: rescheduling a fired periodic timer advances its deadline by
exactly its lapse; when the advanced deadline is still in the past it is
snapped to now + lapse instead, so the new deadline is never in the past
and no catch-up firings accumulate. timerReschedule stores exactly this
reset record and keeps the timer in the ordered set. -/
theorem periodic_reschedule_deadline {α ε : Type} (r : AlarmRec α ε)
    (s : TimerSys α ε) (tid : Nat) (now : Nat)
    (hr : storeFind s.store tid = some r) :
    ((resetRec r true now).deadline =
       if r.deadline + r.lapse < now then now + r.lapse
       else r.deadline + r.lapse) ∧
    (resetRec r true now).shoot = false ∧
    now ≤ (resetRec r true now).deadline ∧
    storeFind (timerReschedule s tid true now).store tid =
      some (resetRec r true now) ∧
    (timerReschedule s tid true now).tset.contains tid = true := by
  refine ⟨?_, rfl, ?_, ?_, ?_⟩
  · by_cases hlt : r.deadline + r.lapse < now <;> simp [resetRec, hlt]
  · by_cases hlt : r.deadline + r.lapse < now <;> simp [resetRec, hlt] <;> omega
  · simp [timerReschedule, hr, storeFind_storeSet_self s.store tid r _ hr]
  · simp only [timerReschedule, hr]
    simp [setInsert_mem]

/-- Witness for periodic_reschedule_deadline on a concrete overdue
periodic timer. -/
theorem periodic_reschedule_deadline_witness :
    ((resetRec sampleAlarmRec true 100).deadline =
       if sampleAlarmRec.deadline + sampleAlarmRec.lapse < 100 then
         100 + sampleAlarmRec.lapse
       else sampleAlarmRec.deadline + sampleAlarmRec.lapse) ∧
    (resetRec sampleAlarmRec true 100).shoot = false ∧
    100 ≤ (resetRec sampleAlarmRec true 100).deadline ∧
    storeFind (timerReschedule sampleTimerSys 1 true 100).store 1 =
      some (resetRec sampleAlarmRec true 100) ∧
    (timerReschedule sampleTimerSys 1 true 100).tset.contains 1 = true :=
  periodic_reschedule_deadline sampleAlarmRec sampleTimerSys 1 100 rfl

/-- C4 counterexample: on an actor whose shutdown already completed via
stop(3), a second stop(5) is not a no-op: it overwrites the stored exit
code, so the observable state changes. -/
theorem stop_second_call_changes_state :
    stopCode false 5 (stopCode false 3 runningLifeState) ≠
      stopCode false 3 runningLifeState := by
  decide

/-- C4 amended: a second stop never runs the shutdown protocol again (the
onStopping and join counters and the cleared containers are untouched) and
leaves the state unchanged except for the stored exit code, which it
overwrites with its own argument; repeating stop with the same code is a
complete no-op. -/
theorem stop_idempotent_amended :
    (∀ (s : LifeState) (code : Int), s.dispatching = false →
       stopCode false code s = { s with exitCode := code }) ∧
    (∀ (s : LifeState) (code : Int),
       stopCode false code (stopCode false code s) = stopCode false code s) := by
  constructor
  · intro s code h
    simp [stopCode, stopB, h]
  · intro s code
    by_cases hd : s.dispatching <;> by_cases hj : s.joinable <;>
      simp [stopCode, stopB, hd, hj]

/-- Witness for stop_idempotent_amended at concrete states. -/
theorem stop_idempotent_amended_witness :
    stopCode false 7 stoppedLifeState = { stoppedLifeState with exitCode := 7 } ∧
    stopCode false 7 (stopCode false 7 runningLifeState) =
      stopCode false 7 runningLifeState :=
  ⟨stop_idempotent_amended.1 stoppedLifeState 7 rfl,
   stop_idempotent_amended.2 runningLifeState 7⟩

/-- Comparator equivalence is symmetric. -/
theorem equivKey_symm (lt : α → α → Bool) (a b : α) :
    equivKey lt a b = equivKey lt b a := by
  simp [equivKey, Bool.and_comm]

/-- A failed map lookup means no key of the map is equivalent to the
probe. -/
theorem mapFind_none_not_equiv (lt : α → α → Bool) :
    ∀ (m : List (α × Nat)) (p : α), mapFind lt m p = none →
      ∀ kv ∈ m, equivKey lt p kv.1 = false := by
  intro m
  induction m with
  | nil => intro p _ kv hkv; simp at hkv
  | cons kv0 rest ih =>
    intro p h kv hkv
    simp only [mapFind] at h
    cases he : equivKey lt p kv0.1 with
    | true => rw [he] at h; simp at h
    | false =>
      rw [he] at h; simp at h
      rcases List.mem_cons.mp hkv with h1 | h2
      · subst h1; exact he
      · exact ih p h kv h2

/-- A successful map lookup bounds the equivalent-key count from below. -/
theorem mapFind_some_count (lt : α → α → Bool) :
    ∀ (m : List (α × Nat)) (p : α) (tid : Nat), mapFind lt m p = some tid →
      1 ≤ countEquivKeys lt m p := by
  intro m
  induction m with
  | nil => intro p tid h; simp [mapFind] at h
  | cons kv0 rest ih =>
    intro p tid h
    simp only [mapFind] at h
    cases he : equivKey lt p kv0.1 with
    | true => simp [countEquivKeys, he]
    | false =>
      rw [he] at h; simp at h
      have := ih p tid h
      simp only [countEquivKeys, List.filter] at this ⊢
      rw [he]
      exact this

/-- A positive equivalent-key count exhibits an equivalent key. -/
theorem count_pos_exists (lt : α → α → Bool) (m : List (α × Nat)) (q : α)
    (h : 0 < countEquivKeys lt m q) :
    ∃ kv ∈ m, equivKey lt q kv.1 = true := by
  simp only [countEquivKeys, List.length_pos] at h
  obtain ⟨kv, hkv⟩ := List.exists_mem_of_ne_nil _ h
  exact ⟨kv, (List.mem_filter.mp hkv).1, (List.mem_filter.mp hkv).2⟩

/-- Count of equivalent keys after consing one entry. -/
theorem countEquivKeys_cons (lt : α → α → Bool) (kv : α × Nat)
    (m : List (α × Nat)) (q : α) :
    countEquivKeys lt (kv :: m) q =
      (if equivKey lt q kv.1 = true then 1 else 0) + countEquivKeys lt m q := by
  cases he : equivKey lt q kv.1 <;> simp [countEquivKeys, List.filter, he] <;> omega

/-- When all keys fail the equivalence the count is zero. -/
theorem count_eq_zero_of_not_equiv (lt : α → α → Bool) (m : List (α × Nat))
    (q : α) (h : ∀ kv ∈ m, equivKey lt q kv.1 = false) :
    countEquivKeys lt m q = 0 := by
  simp only [countEquivKeys, List.length_eq_zero]
  rw [List.filter_eq_nil]
  intro kv hkv
  simp [h kv hkv]

/-- A payload already present leaves the map and the id counter of
timerStart untouched: the existing timer is reused. -/
theorem timerStart_found_frame {α ε : Type} (lt : α → α → Bool)
    (s : TimerSys α ε) (p : α) (lapse : Nat) (ev : ε) (cy : TimerCycle)
    (now : Nat) (tid : Nat) (h : mapFind lt s.tmap p = some tid) :
    (timerStart lt s p lapse ev cy now).tmap = s.tmap ∧
    (timerStart lt s p lapse ev cy now).nextId = s.nextId := by
  unfold timerStart
  rw [h]
  cases hs : storeFind s.store tid <;> simp [hs]

/-- Erasing an id from the timer set removes it. -/
theorem setErase_not_mem (tid : Nat) (l : List Nat) : tid ∉ setErase tid l := by
  simp [setErase]

/-- Erasing an id from the timer set removes it (Bool form used by the
setInsert test). -/
theorem setErase_not_contains (tid : Nat) (l : List Nat) :
    (setErase tid l).contains tid = false := by
  have h := setErase_not_mem tid l
  simpa using h

/-- Membership after the erase-then-insert step of a reprogrammed timer. -/
theorem mem_setInsert_setErase (tid x : Nat) (l : List Nat) :
    x ∈ setInsert tid (setErase tid l) ↔ x = tid ∨ x ∈ l := by
  have hnc : (setErase tid l).contains tid = false := setErase_not_contains tid l
  simp only [setInsert, hnc, Bool.false_eq_true, if_false]
  constructor
  · intro h
    rcases List.mem_cons.mp h with h1 | h2
    · exact Or.inl h1
    · exact Or.inr (List.mem_filter.mp h2).1
  · intro h
    rcases h with h1 | h2
    · exact h1 ▸ List.mem_cons_self _ _
    · by_cases hx : x = tid
      · exact hx ▸ List.mem_cons_self _ _
      · refine List.mem_cons_of_mem _ (List.mem_filter.mpr ⟨h2, ?_⟩)
        simp [hx]

/-- C2: under a strict weak payload order, timerStart preserves the
at-most-one-timer-per-payload invariant, leaves exactly one live timer for
the started payload, and on a payload that already has a timer it
reprograms that same timer in place: map and id counter untouched (no new
timer object), the stored record gets the new event, lapse, cycle and
deadline, and the ordered set still holds the same timer. -/
theorem timerStart_unique_and_reprograms {α ε : Type} (lt : α → α → Bool)
    (s : TimerSys α ε) (p : α) (lapse : Nat) (ev : ε) (cy : TimerCycle)
    (now : Nat)
    (hIrrefl : ∀ a : α, lt a a = false)
    (hTrans : ∀ a b c : α, equivKey lt a b = true → equivKey lt b c = true →
       equivKey lt a c = true)
    (hUnique : ∀ q : α, countEquivKeys lt s.tmap q ≤ 1) :
    (∀ q : α, countEquivKeys lt (timerStart lt s p lapse ev cy now).tmap q ≤ 1) ∧
    countEquivKeys lt (timerStart lt s p lapse ev cy now).tmap p = 1 ∧
    (∀ (tid : Nat) (r : AlarmRec α ε),
       mapFind lt s.tmap p = some tid → storeFind s.store tid = some r →
       (timerStart lt s p lapse ev cy now).tmap = s.tmap ∧
       (timerStart lt s p lapse ev cy now).nextId = s.nextId ∧
       storeFind (timerStart lt s p lapse ev cy now).store tid =
         some (resetRec { r with event := ev, lapse := lapse, cycle := cy }
                 false now) ∧
       (∀ x, x ∈ (timerStart lt s p lapse ev cy now).tset ↔
          x = tid ∨ x ∈ s.tset)) := by
  have hself : equivKey lt p p = true := by simp [equivKey, hIrrefl p]
  refine ⟨?_, ?_, ?_⟩
  · intro q
    cases hf : mapFind lt s.tmap p with
    | some tid =>
      rw [(timerStart_found_frame lt s p lapse ev cy now tid hf).1]
      exact hUnique q
    | none =>
      have htm : (timerStart lt s p lapse ev cy now).tmap = (p, s.nextId) :: s.tmap := by
        unfold timerStart
        rw [hf]
      rw [htm, countEquivKeys_cons]
      cases he : equivKey lt q p with
      | false => simpa using hUnique q
      | true =>
        have hzero : countEquivKeys lt s.tmap q = 0 := by
          by_contra hne
          obtain ⟨kv, hkvm, hkve⟩ :=
            count_pos_exists lt s.tmap q (Nat.pos_of_ne_zero hne)
          have hpq : equivKey lt p q = true := by rw [equivKey_symm]; exact he
          have : equivKey lt p kv.1 = true := hTrans p q kv.1 hpq hkve
          rw [mapFind_none_not_equiv lt s.tmap p hf kv hkvm] at this
          exact Bool.false_ne_true this
        simp [hzero]
  · cases hf : mapFind lt s.tmap p with
    | some tid =>
      rw [(timerStart_found_frame lt s p lapse ev cy now tid hf).1]
      have h1 := mapFind_some_count lt s.tmap p tid hf
      have h2 := hUnique p
      omega
    | none =>
      have htm : (timerStart lt s p lapse ev cy now).tmap = (p, s.nextId) :: s.tmap := by
        unfold timerStart
        rw [hf]
      have hzero : countEquivKeys lt s.tmap p = 0 :=
        count_eq_zero_of_not_equiv lt s.tmap p (mapFind_none_not_equiv lt s.tmap p hf)
      rw [htm, countEquivKeys_cons, hself, hzero]
      rfl
  · intro tid r hf hr
    refine ⟨(timerStart_found_frame lt s p lapse ev cy now tid hf).1,
            (timerStart_found_frame lt s p lapse ev cy now tid hf).2, ?_, ?_⟩
    · unfold timerStart
      simp only [hf, hr]
      exact storeFind_storeSet_self s.store tid r _ hr
    · intro x
      have hts : (timerStart lt s p lapse ev cy now).tset =
          setInsert tid (setErase tid s.tset) := by
        unfold timerStart
        simp only [hf, hr]
      rw [hts]
      exact mem_setInsert_setErase tid x s.tset

/-- Witness for timerStart_unique_and_reprograms: reprogramming the Bool
payload true that already holds timer 1. -/
theorem timerStart_unique_and_reprograms_witness :
    ((∀ q : Bool, countEquivKeys boolLtB
        (timerStart boolLtB sampleTimerSysB true 9 4 TimerCycle.Periodic 20).tmap q ≤ 1) ∧
     countEquivKeys boolLtB
       (timerStart boolLtB sampleTimerSysB true 9 4 TimerCycle.Periodic 20).tmap true = 1 ∧
     (∀ (tid : Nat) (r : AlarmRec Bool Nat),
        mapFind boolLtB sampleTimerSysB.tmap true = some tid →
        storeFind sampleTimerSysB.store tid = some r →
        (timerStart boolLtB sampleTimerSysB true 9 4 TimerCycle.Periodic 20).tmap =
          sampleTimerSysB.tmap ∧
        (timerStart boolLtB sampleTimerSysB true 9 4 TimerCycle.Periodic 20).nextId =
          sampleTimerSysB.nextId ∧
        storeFind (timerStart boolLtB sampleTimerSysB true 9 4 TimerCycle.Periodic 20).store tid =
          some (resetRec { r with event := 4, lapse := 9, cycle := TimerCycle.Periodic }
                  false 20) ∧
        (∀ x, x ∈ (timerStart boolLtB sampleTimerSysB true 9 4 TimerCycle.Periodic 20).tset ↔
           x = tid ∨ x ∈ sampleTimerSysB.tset))) :=
  timerStart_unique_and_reprograms boolLtB sampleTimerSysB true 9 4
    TimerCycle.Periodic 20 (by decide) (by decide) (by decide)

/-- C10: the DispatchRetry comparator is constantly false, so all retry
payloads denote the same map entry: a timerStart with any retry value on a
non-empty retry map reuses the single existing timer (map unchanged), the
map never grows beyond one entry, and the existing timer is reprogrammed
with the newly supplied interval as its lapse. -/
theorem dispatchRetry_single_timer {ε : Type} (s : TimerSys DispatchRetry ε)
    (r : DispatchRetry) (ev : ε) (cy : TimerCycle) (now : Nat) :
    (∀ a b : DispatchRetry, dispatchRetryLt a b = false) ∧
    (s.tmap ≠ [] →
       (timerStart dispatchRetryLt s r r.retryInterval ev cy now).tmap = s.tmap) ∧
    (s.tmap.length ≤ 1 →
       (timerStart dispatchRetryLt s r r.retryInterval ev cy now).tmap.length ≤ 1) ∧
    (∀ (p0 : DispatchRetry) (tid : Nat) (rec0 : AlarmRec DispatchRetry ε),
       s.tmap = [(p0, tid)] → storeFind s.store tid = some rec0 →
       storeFind (timerStart dispatchRetryLt s r r.retryInterval ev cy now).store tid =
         some (resetRec { rec0 with event := ev, lapse := r.retryInterval, cycle := cy }
                 false now)) := by
  have hfound : ∀ (p0 : DispatchRetry) (tid : Nat) (rest : List (DispatchRetry × Nat)),
      mapFind dispatchRetryLt ((p0, tid) :: rest) r = some tid := by
    intro p0 tid rest
    simp [mapFind, equivKey, dispatchRetryLt]
  have hframe : s.tmap ≠ [] →
      (timerStart dispatchRetryLt s r r.retryInterval ev cy now).tmap = s.tmap := by
    intro hne
    obtain ⟨kv, rest, htm⟩ := List.exists_cons_of_ne_nil hne
    have hf : mapFind dispatchRetryLt s.tmap r = some kv.2 := by
      rw [htm]
      exact hfound kv.1 kv.2 rest
    exact (timerStart_found_frame dispatchRetryLt s r r.retryInterval ev cy now kv.2 hf).1
  refine ⟨fun _ _ => rfl, hframe, ?_, ?_⟩
  · intro hlen
    by_cases hnil : s.tmap = []
    · have hf : mapFind dispatchRetryLt s.tmap r = none := by rw [hnil]; rfl
      have : (timerStart dispatchRetryLt s r r.retryInterval ev cy now).tmap =
          (r, s.nextId) :: s.tmap := by
        unfold timerStart
        rw [hf]
      rw [this, hnil]
      simp
    · rw [hframe hnil]
      exact hlen
  · intro p0 tid rec0 htm hr
    have hf : mapFind dispatchRetryLt s.tmap r = some tid := by
      rw [htm]
      exact hfound p0 tid []
    unfold timerStart
    simp only [hf, hr]
    exact storeFind_storeSet_self s.store tid rec0 _ hr

/-- Removing an id from the store makes its lookup fail. -/
theorem storeFind_storeRemove_self {α ε : Type} (st : List (Nat × AlarmRec α ε))
    (tid : Nat) : storeFind (storeRemove st tid) tid = none := by
  induction st with
  | nil => rfl
  | cons kv rest ih =>
    simp only [storeRemove, List.filter] at ih ⊢
    cases hk : (kv.1 != tid) with
    | false => exact ih
    | true =>
      simp only [storeFind]
      have : (kv.1 == tid) = false := by
        cases hb : (kv.1 == tid)
        · rfl
        · rw [bne_eq_false_iff_eq.mpr (beq_iff_eq.mp hb)] at hk
          exact absurd hk (by simp)
      rw [this]
      simpa using ih

/-- After erasing a payload from the map its lookup fails. -/
theorem mapFind_mapErase_self (lt : α → α → Bool) (m : List (α × Nat)) (p : α) :
    mapFind lt (mapErase lt m p) p = none := by
  induction m with
  | nil => rfl
  | cons kv rest ih =>
    simp only [mapErase, List.filter] at ih ⊢
    cases he : equivKey lt p kv.1 with
    | true => simpa [he] using ih
    | false =>
      simp only [he, Bool.not_false]
      simp only [mapFind, he, Bool.false_eq_true, if_false]
      exact ih

/-- Inserting an id into the timer set makes it a member (Bool form). -/
theorem setInsert_contains_self (tid : Nat) (l : List Nat) :
    (setInsert tid l).contains tid = true := by
  have h := setInsert_mem tid l
  simpa using h

/-- C3: the shoot protocol of a firing timer. With r the record of the
firing timer and r2 its record after the event callback ran (the callback
received the payload and may itself have stopped or restarted the timer):
(a) shoot still set and cycle OneShot removes the timer entirely from
store, map and ordered set; (b) shoot still set and cycle Periodic keeps
the timer and reschedules it by the incremental deadline reset; (c) shoot
cleared by the callback is honored: the final state is exactly the
callback's state after the dispatcher frame releases its reference, with
no removal or rescheduling beyond it. -/
theorem alarm_fire_shoot_protocol {α ε : Type} (lt : α → α → Bool)
    (runEvent : ε → α → TimerSys α ε → TimerSys α ε)
    (s : TimerSys α ε) (tid : Nat) (now : Nat) (r r2 : AlarmRec α ε)
    (hr : storeFind s.store tid = some r)
    (hr2 : storeFind (afterEvent runEvent s tid r).store tid = some r2) :
    (r2.shoot = true → r2.cycle = TimerCycle.OneShot →
       mapFind lt (afterEvent runEvent s tid r).tmap r2.payload = some tid →
       storeFind (alarmDeliverTo lt runEvent s tid now).store tid = none ∧
       mapFind lt (alarmDeliverTo lt runEvent s tid now).tmap r2.payload = none ∧
       tid ∉ (alarmDeliverTo lt runEvent s tid now).tset ∧
       (alarmDeliverTo lt runEvent s tid now).firing = none) ∧
    (r2.shoot = true → r2.cycle = TimerCycle.Periodic →
       storeFind (alarmDeliverTo lt runEvent s tid now).store tid =
         some (resetRec r2 true now) ∧
       tid ∈ (alarmDeliverTo lt runEvent s tid now).tset ∧
       (alarmDeliverTo lt runEvent s tid now).firing = none) ∧
    (r2.shoot = false →
       alarmDeliverTo lt runEvent s tid now =
         releaseFiring (afterEvent runEvent s tid r) tid) := by
  have hfire : (afterEvent runEvent s tid r).firing = some tid := rfl
  refine ⟨?_, ?_, ?_⟩
  · intro hsh hcy hm
    have hdef : alarmDeliverTo lt runEvent s tid now =
        releaseFiring (timerStop lt (afterEvent runEvent s tid r) r2.payload now) tid := by
      unfold alarmDeliverTo
      simp only [hr, hr2, hsh, hcy, if_true]
      rfl
    have hstop : timerStop lt (afterEvent runEvent s tid r) r2.payload now =
        { afterEvent runEvent s tid r with
          tset := setErase tid (afterEvent runEvent s tid r).tset,
          tmap := mapErase lt (afterEvent runEvent s tid r).tmap r2.payload,
          store := storeSet (afterEvent runEvent s tid r).store tid
                     (resetRec r2 false now) } := by
      unfold timerStop
      simp only [hm, hfire, hr2]
      simp
    rw [hdef, hstop]
    refine ⟨?_, ?_, ?_, rfl⟩
    · simp only [releaseFiring, setErase_not_contains, Bool.false_eq_true, if_false]
      exact storeFind_storeRemove_self _ tid
    · simp only [releaseFiring]
      exact mapFind_mapErase_self lt _ r2.payload
    · simp only [releaseFiring]
      exact setErase_not_mem tid _
  · intro hsh hcy
    have hcyb : (r2.cycle == TimerCycle.OneShot) = false := by
      rw [hcy]
      rfl
    have hdef : alarmDeliverTo lt runEvent s tid now =
        releaseFiring (timerReschedule (afterEvent runEvent s tid r) tid true now) tid := by
      unfold alarmDeliverTo
      simp only [hr, hr2, hsh, hcyb, if_true, Bool.false_eq_true, if_false]
    have hres : timerReschedule (afterEvent runEvent s tid r) tid true now =
        { afterEvent runEvent s tid r with
          store := storeSet (afterEvent runEvent s tid r).store tid (resetRec r2 true now),
          tset := setInsert tid (setErase tid (afterEvent runEvent s tid r).tset) } := by
      unfold timerReschedule
      simp only [hr2]
    rw [hdef, hres]
    refine ⟨?_, ?_, rfl⟩
    · simp only [releaseFiring, setInsert_contains_self, if_true]
      exact storeFind_storeSet_self _ tid r2 _ hr2
    · simp only [releaseFiring]
      exact setInsert_mem tid _
  · intro hsh
    unfold alarmDeliverTo
    simp only [hr, hr2, hsh, Bool.false_eq_true, if_false]

/-- Witness for alarm_fire_shoot_protocol: a due one-shot timer whose
callback does not touch it is removed after firing. -/
theorem alarm_fire_shoot_protocol_witness :
    storeFind (alarmDeliverTo natLtB idleRunEvent sampleOneShotSys 1 30).store 1 = none ∧
    mapFind natLtB (alarmDeliverTo natLtB idleRunEvent sampleOneShotSys 1 30).tmap 5 = none ∧
    1 ∉ (alarmDeliverTo natLtB idleRunEvent sampleOneShotSys 1 30).tset ∧
    (alarmDeliverTo natLtB idleRunEvent sampleOneShotSys 1 30).firing = none :=
  (alarm_fire_shoot_protocol natLtB idleRunEvent sampleOneShotSys 1 30
      sampleOneShotRec { sampleOneShotRec with shoot := true }
      (by decide) (by decide)).1 (by decide) (by decide) (by decide)

/-- Witness for dispatchRetry_single_timer: a second retry throw with
interval 7 reprograms the single existing retry timer. -/
theorem dispatchRetry_single_timer_witness :
    (timerStart dispatchRetryLt sampleRetrySys sampleRetry
       sampleRetry.retryInterval 0 TimerCycle.OneShot 50).tmap =
      sampleRetrySys.tmap ∧
    storeFind (timerStart dispatchRetryLt sampleRetrySys sampleRetry
       sampleRetry.retryInterval 0 TimerCycle.OneShot 50).store 1 =
      some (resetRec { sampleRetryRec with event := 0, lapse := 7, cycle := TimerCycle.OneShot }
              false 50) :=
  ⟨(dispatchRetry_single_timer sampleRetrySys sampleRetry 0 TimerCycle.OneShot 50).2.1
     (by decide),
   (dispatchRetry_single_timer sampleRetrySys sampleRetry 0 TimerCycle.OneShot 50).2.2.2
     ⟨3⟩ 1 sampleRetryRec rfl rfl⟩

/-- The inner loop never flips the external-dispatcher flag. -/
theorem innerConsume_external (o : DeliverOracle) :
    ∀ (fuel : Nat) (q : WhichQueue) (s : LoopSt) (tr : List Parcel),
      (innerConsume o fuel q s tr).st.external = s.external := by
  intro fuel
  induction fuel with
  | zero => intro q s tr; rfl
  | succ f ih =>
    intro q s tr
    unfold innerConsume
    cases hq : queueOf q s.core with
    | nil => rfl
    | cons m rest =>
      cases hd : (o.deliverMsg m s.core).2 with
      | some iv => simp only [hd]
      | none =>
        simp only [hd]
        by_cases hb : (((s.burst + 1) % 65536) % 64 == 0 : Bool) = true
        · rw [if_pos hb]
          by_cases hx : s.external = true
          · rw [if_pos hx]
          · rw [if_neg hx]
        · rw [if_neg hb]
          exact ih q _ _

/-- An inner loop that did not end on the burst boundary keeps the
mustDispatch flag and preserves the delivery budget: the trace growth is
paid for exactly by the burst counter. -/
theorem innerConsume_nonbreak (o : DeliverOracle) :
    ∀ (fuel : Nat) (q : WhichQueue) (s : LoopSt) (tr : List Parcel),
      (innerConsume o fuel q s tr).res ≠ InnerRes.burstBreak →
      (innerConsume o fuel q s tr).st.mustDispatch = s.mustDispatch ∧
      (innerConsume o fuel q s tr).trace.length +
          (64 - (innerConsume o fuel q s tr).st.burst % 64) =
        tr.length + (64 - s.burst % 64) := by
  intro fuel
  induction fuel with
  | zero => intro q s tr _; exact ⟨rfl, rfl⟩
  | succ f ih =>
    intro q s tr hnb
    unfold innerConsume at hnb ⊢
    cases hq : queueOf q s.core with
    | nil => exact ⟨rfl, rfl⟩
    | cons m rest =>
      rw [hq] at hnb
      cases hd : (o.deliverMsg m s.core).2 with
      | some iv =>
        simp only [hd] at hnb ⊢
        exact ⟨trivial, trivial⟩
      | none =>
        simp only [hd] at hnb ⊢
        by_cases hb : (((s.burst + 1) % 65536) % 64 == 0 : Bool) = true
        · exfalso
          rw [if_pos hb] at hnb
          by_cases hx : s.external = true
          · rw [if_pos hx] at hnb; exact hnb rfl
          · rw [if_neg hx] at hnb; exact hnb rfl
        · rw [if_neg hb] at hnb ⊢
          have hmod : ((s.burst + 1) % 65536) % 64 = (s.burst + 1) % 64 :=
            Nat.mod_mod_of_dvd _ (by norm_num)
          have hne : (s.burst + 1) % 64 ≠ 0 := by
            intro h0
            exact hb (by simp [hmod, h0])
          have hlt : s.burst % 64 < 63 := by
            have h1 : s.burst % 64 < 64 := Nat.mod_lt _ (by norm_num)
            rcases Nat.lt_or_ge (s.burst % 64) 63 with h | h
            · exact h
            · exfalso
              have h63 : s.burst % 64 = 63 := by omega
              have : (s.burst + 1) % 64 = 0 := by omega
              exact hne this
          have hsucc : (s.burst + 1) % 64 = s.burst % 64 + 1 := by omega
          have hih := ih q { s with core := popQueue q (o.deliverMsg m s.core).1,
                                    burst := (s.burst + 1) % 65536 } (tr ++ [m]) hnb
          refine ⟨hih.1, ?_⟩
          rw [hih.2]
          simp only [List.length_append, List.length_cons, List.length_nil, hmod, hsucc]
          omega

/-- An inner loop that ended on the burst boundary delivered no more than
the budget allowed, and under an external dispatcher it ended the batch. -/
theorem innerConsume_break (o : DeliverOracle) :
    ∀ (fuel : Nat) (q : WhichQueue) (s : LoopSt) (tr : List Parcel),
      (innerConsume o fuel q s tr).res = InnerRes.burstBreak →
      (innerConsume o fuel q s tr).trace.length ≤
          tr.length + (64 - s.burst % 64) ∧
      (s.external = true → (innerConsume o fuel q s tr).st.mustDispatch = false) := by
  intro fuel
  induction fuel with
  | zero => intro q s tr h; exact absurd h (by simp [innerConsume])
  | succ f ih =>
    intro q s tr hbk
    unfold innerConsume at hbk ⊢
    cases hq : queueOf q s.core with
    | nil => rw [hq] at hbk; exact absurd hbk (by simp)
    | cons m rest =>
      rw [hq] at hbk
      cases hd : (o.deliverMsg m s.core).2 with
      | some iv => simp only [hd] at hbk; exact absurd hbk (by simp)
      | none =>
        simp only [hd] at hbk ⊢
        have hr64 : s.burst % 64 < 64 := Nat.mod_lt _ (by norm_num)
        by_cases hb : (((s.burst + 1) % 65536) % 64 == 0 : Bool) = true
        · rw [if_pos hb] at hbk ⊢
          by_cases hx : s.external = true
          · rw [if_pos hx] at hbk ⊢
            refine ⟨?_, fun _ => rfl⟩
            simp only [List.length_append, List.length_cons, List.length_nil]
            omega
          · rw [if_neg hx] at hbk ⊢
            refine ⟨?_, fun hcontr => absurd hcontr hx⟩
            simp only [List.length_append, List.length_cons, List.length_nil]
            omega
        · rw [if_neg hb] at hbk ⊢
          have hmod : ((s.burst + 1) % 65536) % 64 = (s.burst + 1) % 64 :=
            Nat.mod_mod_of_dvd _ (by norm_num)
          have hne : (s.burst + 1) % 64 ≠ 0 := by
            intro h0
            exact hb (by simp [hmod, h0])
          have hlt : s.burst % 64 < 63 := by
            rcases Nat.lt_or_ge (s.burst % 64) 63 with h | h
            · exact h
            · exfalso
              have h63 : s.burst % 64 = 63 := by omega
              have : (s.burst + 1) % 64 = 0 := by omega
              exact hne this
          have hsucc : (s.burst + 1) % 64 = s.burst % 64 + 1 := by omega
          have hih := ih q { s with core := popQueue q (o.deliverMsg m s.core).1,
                                    burst := (s.burst + 1) % 65536 } (tr ++ [m]) hbk
          refine ⟨?_, hih.2⟩
          have h2 := hih.1
          simp only [List.length_append, List.length_cons, List.length_nil, hmod, hsucc] at h2
          omega

/-- The inner loop only appends to the delivery trace. -/
theorem innerConsume_trace_prefix (o : DeliverOracle) :
    ∀ (fuel : Nat) (q : WhichQueue) (s : LoopSt) (tr : List Parcel),
      ∃ l, (innerConsume o fuel q s tr).trace = tr ++ l := by
  intro fuel
  induction fuel with
  | zero => intro q s tr; exact ⟨[], by simp [innerConsume]⟩
  | succ f ih =>
    intro q s tr
    unfold innerConsume
    cases hq : queueOf q s.core with
    | nil => exact ⟨[], by simp⟩
    | cons m rest =>
      cases hd : (o.deliverMsg m s.core).2 with
      | some iv => simp only [hd]; exact ⟨[], by simp⟩
      | none =>
        simp only [hd]
        by_cases hb : (((s.burst + 1) % 65536) % 64 == 0 : Bool) = true
        · rw [if_pos hb]
          by_cases hx : s.external = true
          · rw [if_pos hx]; exact ⟨[m], rfl⟩
          · rw [if_neg hx]; exact ⟨[m], rfl⟩
        · rw [if_neg hb]
          obtain ⟨l, hl⟩ := ih q _ (tr ++ [m])
          exact ⟨m :: l, by rw [hl]; simp⟩

/-- When the high-priority queue starts with parcel m, the consume loop on
that queue delivers m first: either it delivers nothing (the handler threw
DispatchRetry) or the first new trace entry is m. -/
theorem innerConsume_high_head (o : DeliverOracle) :
    ∀ (fuel : Nat) (s : LoopSt) (tr : List Parcel) (m : Parcel)
      (rest : List Parcel), s.core.high = m :: rest →
      (innerConsume o fuel WhichQueue.highQ s tr).trace = tr ∨
      ∃ l, (innerConsume o fuel WhichQueue.highQ s tr).trace = tr ++ m :: l := by
  intro fuel
  cases fuel with
  | zero => intro s tr m rest h; left; rfl
  | succ f =>
    intro s tr m rest h
    unfold innerConsume
    have hq : queueOf WhichQueue.highQ s.core = m :: rest := h
    rw [hq]
    cases hd : (o.deliverMsg m s.core).2 with
    | some iv => left; simp only [hd]
    | none =>
      right
      simp only [hd]
      by_cases hb : (((s.burst + 1) % 65536) % 64 == 0 : Bool) = true
      · rw [if_pos hb]
        by_cases hx : s.external = true
        · rw [if_pos hx]; exact ⟨[], rfl⟩
        · rw [if_neg hx]; exact ⟨[], rfl⟩
      · rw [if_neg hb]
        obtain ⟨l, hl⟩ := innerConsume_trace_prefix o f WhichQueue.highQ _ (tr ++ [m])
        exact ⟨l, by rw [hl]; simp⟩

/-- The budget never undercounts the trace. -/
theorem loopBudget_ge (s : LoopSt) (n : Nat) : n ≤ loopBudget s n := by
  unfold loopBudget
  split <;> omega

/-- One consume phase under an external dispatcher stays within the
delivery budget. -/
theorem consumePhase_budget (o : DeliverOracle) (s : LoopSt) (tr : List Parcel)
    (hext : s.external = true) (hmd : s.mustDispatch = true) :
    (consumePhase o s tr).st.external = true ∧
    loopBudget (consumePhase o s tr).st (consumePhase o s tr).trace.length ≤
      tr.length + (64 - s.burst % 64) ∧
    (consumePhase o s tr).trace.length ≤ tr.length + (64 - s.burst % 64) := by
  cases hsel : iterationSelect s.core with
  | none =>
    unfold consumePhase
    simp only [hsel]
    refine ⟨hext, ?_, ?_⟩
    · unfold loopBudget
      rw [if_pos hmd]
    · omega
  | some q =>
    unfold consumePhase
    simp only [hsel]
    have hx := innerConsume_external o 64 q s tr
    refine ⟨by rw [hx]; exact hext, ?_, ?_⟩
    · by_cases hres : (innerConsume o 64 q s tr).res = InnerRes.burstBreak
      · have hbr := innerConsume_break o 64 q s tr hres
        unfold loopBudget
        rw [hbr.2 hext, if_neg (by simp)]
        exact hbr.1
      · have hnb := innerConsume_nonbreak o 64 q s tr hres
        unfold loopBudget
        rw [hnb.1, if_pos hmd]
        omega
    · by_cases hres : (innerConsume o 64 q s tr).res = InnerRes.burstBreak
      · exact (innerConsume_break o 64 q s tr hres).1
      · have hnb := innerConsume_nonbreak o 64 q s tr hres
        omega

/-- eventsLoop under an external dispatcher delivers no more mailbox
parcels than its budget. -/
theorem eventsLoop_budget (o : DeliverOracle) :
    ∀ (fuel : Nat) (s : LoopSt) (tr : List Parcel), s.external = true →
      (eventsLoop o fuel s tr).trace.length ≤ loopBudget s tr.length := by
  intro fuel
  induction fuel with
  | zero => intro s tr _; exact loopBudget_ge s _
  | succ f ih =>
    intro s tr hext
    unfold eventsLoop
    by_cases hcond : (s.core.dispatching && s.mustDispatch) = true
    · rw [if_pos hcond]
      have hmd : s.mustDispatch = true := by
        revert hcond
        cases s.mustDispatch <;> simp
      have hc := consumePhase_budget o s tr hext hmd
      have hbudget : loopBudget s tr.length = tr.length + (64 - s.burst % 64) := by
        unfold loopBudget
        rw [if_pos hmd]
      cases htp : timerPhase o (consumePhase o s tr).st.external
          (consumePhase o s tr).st.core with
      | advance c1 =>
        have hrec := ih { (consumePhase o s tr).st with core := c1 }
          (consumePhase o s tr).trace hc.1
        have hsame : loopBudget { (consumePhase o s tr).st with core := c1 }
            (consumePhase o s tr).trace.length =
            loopBudget (consumePhase o s tr).st (consumePhase o s tr).trace.length := rfl
        rw [hsame] at hrec
        rw [hbudget]
        exact le_trans hrec hc.2.1
      | exitNone => rw [hbudget]; exact hc.2.2
      | exitSome d => rw [hbudget]; exact hc.2.2
      | waitMsg => rw [hbudget]; exact hc.2.2
      | waitUntil t => rw [hbudget]; exact hc.2.2
    · rw [if_neg hcond]
      exact loopBudget_ge s _

/-- Under an external dispatcher the timer phase never blocks. -/
theorem timerPhase_ext_no_wait (o : DeliverOracle) (c : Core) :
    timerPhase o true c ≠ TimerPhaseRes.waitMsg ∧
    ∀ u, timerPhase o true c ≠ TimerPhaseRes.waitUntil u := by
  have h : ∀ r, timerPhase o true c = r →
      r ≠ TimerPhaseRes.waitMsg ∧ ∀ u, r ≠ TimerPhaseRes.waitUntil u := by
    intro r hr
    unfold timerPhase at hr
    cases hft : firstTimer c.timers with
    | none =>
      rw [hft] at hr
      by_cases h1 : (c.norm.isEmpty && c.high.isEmpty && c.dispatching) = true
      · rw [if_pos h1] at hr
        subst hr; exact ⟨by simp, fun u => by simp⟩
      · rw [if_neg h1] at hr
        subst hr; exact ⟨by simp, fun u => by simp⟩
    | some t =>
      simp only [hft] at hr
      by_cases h1 : c.now ≥ t.2
      · rw [if_pos h1] at hr
        subst hr; exact ⟨by simp, fun u => by simp⟩
      · rw [if_neg h1] at hr
        by_cases h2 : (c.dispatching && c.high.isEmpty &&
            (c.norm.isEmpty || c.paused)) = true
        · rw [if_pos h2] at hr
          subst hr; exact ⟨by simp, fun u => by simp⟩
        · rw [if_neg h2] at hr
          subst hr; exact ⟨by simp, fun u => by simp⟩
  exact h _ rfl

/-- Under an external dispatcher eventsLoop never ends in a blocking
wait. -/
theorem eventsLoop_ext_no_block (o : DeliverOracle) :
    ∀ (fuel : Nat) (s : LoopSt) (tr : List Parcel), s.external = true →
      (eventsLoop o fuel s tr).exit ≠ LoopExit.blockedMsg ∧
      ∀ u, (eventsLoop o fuel s tr).exit ≠ LoopExit.blockedUntil u := by
  intro fuel
  induction fuel with
  | zero => intro s tr _; exact ⟨by simp [eventsLoop], fun u => by simp [eventsLoop]⟩
  | succ f ih =>
    intro s tr hext
    unfold eventsLoop
    by_cases hcond : (s.core.dispatching && s.mustDispatch) = true
    · rw [if_pos hcond]
      have hcx : (consumePhase o s tr).st.external = true := by
        unfold consumePhase
        cases hsel : iterationSelect s.core with
        | none => exact hext
        | some q => rw [innerConsume_external o 64 q s tr]; exact hext
      have hnw := timerPhase_ext_no_wait o (consumePhase o s tr).st.core
      rw [hcx]
      cases htp : timerPhase o true (consumePhase o s tr).st.core with
      | advance c1 => exact ih _ _ hcx
      | exitNone => exact ⟨by simp, fun u => by simp⟩
      | exitSome d => exact ⟨by simp, fun u => by simp⟩
      | waitMsg => exact absurd htp hnw.1
      | waitUntil t => exact absurd htp (hnw.2 t)
    · rw [if_neg hcond]
      exact ⟨by simp, fun u => by simp⟩

/-- Inversion of a timer-wait handback: the returned duration is measured
from the pending timer the phase found. -/
theorem timerPhase_exitSome_inv (o : DeliverOracle) (ext : Bool) (c : Core)
    (d : Nat) (h : timerPhase o ext c = TimerPhaseRes.exitSome d) :
    ∃ t, firstTimer c.timers = some t ∧ c.now < t.2 ∧ d = t.2 - c.now := by
  unfold timerPhase at h
  cases hft : firstTimer c.timers with
  | none =>
    rw [hft] at h
    by_cases h1 : (c.norm.isEmpty && c.high.isEmpty && c.dispatching) = true
    · rw [if_pos h1] at h
      by_cases hx : ext = true
      · rw [if_pos hx] at h; exact absurd h (by simp)
      · rw [if_neg hx] at h; exact absurd h (by simp)
    · rw [if_neg h1] at h; exact absurd h (by simp)
  | some t =>
    simp only [hft] at h
    by_cases hdue : c.now ≥ t.2
    · rw [if_pos hdue] at h
      simp at h
    · rw [if_neg hdue] at h
      by_cases hg : (c.dispatching && c.high.isEmpty &&
          (c.norm.isEmpty || c.paused)) = true
      · rw [if_pos hg] at h
        by_cases hx : ext = true
        · rw [if_pos hx] at h
          refine ⟨t, rfl, by omega, ?_⟩
          cases h
          rfl
        · rw [if_neg hx] at h; exact absurd h (by simp)
      · rw [if_neg hg] at h; exact absurd h (by simp)

/-- Inversion lifted through eventsLoop: a handback of (true, d) measures
d from the earliest pending deadline of the final state. -/
theorem eventsLoop_finishedSome_inv (o : DeliverOracle) :
    ∀ (fuel : Nat) (s : LoopSt) (tr : List Parcel) (d : Nat),
      (eventsLoop o fuel s tr).exit = LoopExit.finished (some d) →
      ∃ t, firstTimer (eventsLoop o fuel s tr).st.core.timers = some t ∧
        (eventsLoop o fuel s tr).st.core.now < t.2 ∧
        d = t.2 - (eventsLoop o fuel s tr).st.core.now := by
  intro fuel
  induction fuel with
  | zero => intro s tr d h; exact absurd h (by simp [eventsLoop])
  | succ f ih =>
    intro s tr d h
    unfold eventsLoop at h ⊢
    by_cases hcond : (s.core.dispatching && s.mustDispatch) = true
    · rw [if_pos hcond] at h ⊢
      cases htp : timerPhase o (consumePhase o s tr).st.external
          (consumePhase o s tr).st.core with
      | advance c1 =>
        rw [htp] at h
        exact ih _ _ d h
      | exitNone => rw [htp] at h; simp at h
      | exitSome d2 =>
        rw [htp] at h
        have hd : d2 = d := by
          simpa using h
        subst hd
        exact timerPhase_exitSome_inv o _ _ d2 htp
      | waitMsg => rw [htp] at h; simp at h
      | waitUntil t => rw [htp] at h; simp at h
    · rw [if_neg hcond] at h; simp at h

/-- An empty firstTimer means an empty timer set. -/
theorem firstTimer_none_nil :
    ∀ (ts : List (Nat × Nat)), firstTimer ts = none → ts = [] := by
  intro ts h
  cases ts with
  | nil => rfl
  | cons a as =>
    exfalso
    unfold firstTimer at h
    cases h2 : firstTimer as with
    | none => rw [h2] at h; exact Option.noConfusion h
    | some b =>
      simp only [h2] at h
      by_cases hlt : (timerPairLt a b) = true
      · rw [if_pos hlt] at h; exact Option.noConfusion h
      · rw [if_neg hlt] at h; exact Option.noConfusion h

/-- firstTimer returns an element of the set. -/
theorem firstTimer_mem :
    ∀ (ts : List (Nat × Nat)) (t : Nat × Nat), firstTimer ts = some t → t ∈ ts := by
  intro ts
  induction ts with
  | nil => intro t h; simp [firstTimer] at h
  | cons t0 rest ih =>
    intro t h
    unfold firstTimer at h
    cases hft : firstTimer rest with
    | none =>
      rw [hft] at h
      cases h
      exact List.mem_cons_self _ _
    | some u =>
      simp only [hft] at h
      by_cases hlt : (timerPairLt t0 u) = true
      · rw [if_pos hlt] at h
        injection h with h2
        subst h2
        exact List.mem_cons_self _ _
      · rw [if_neg hlt] at h
        injection h with h2
        subst h2
        exact List.mem_cons_of_mem _ (ih u hft)

/-- firstTimer returns a timer of least deadline. -/
theorem firstTimer_min :
    ∀ (ts : List (Nat × Nat)) (t : Nat × Nat), firstTimer ts = some t →
      ∀ u ∈ ts, t.2 ≤ u.2 := by
  intro ts
  induction ts with
  | nil => intro t h; simp [firstTimer] at h
  | cons t0 rest ih =>
    intro t h u hu
    unfold firstTimer at h
    cases hft : firstTimer rest with
    | none =>
      rw [hft] at h
      cases h
      have hnil : rest = [] := firstTimer_none_nil rest hft
      subst hnil
      rcases List.mem_cons.mp hu with h1 | h1
      · subst h1; omega
      · simp at h1
    | some u0 =>
      simp only [hft] at h
      by_cases hlt : (timerPairLt t0 u0) = true
      · rw [if_pos hlt] at h
        injection h with h2
        subst h2
        have hl2 := hlt
        simp only [timerPairLt, Bool.or_eq_true, Bool.and_eq_true, decide_eq_true_eq,
          beq_iff_eq] at hl2
        rcases List.mem_cons.mp hu with h1 | h1
        · rw [h1]
        · have h3 := ih u0 hft u h1
          rcases hl2 with h4 | h4 <;> omega
      · rw [if_neg hlt] at h
        injection h with h2
        subst h2
        have hl2 := hlt
        simp only [timerPairLt, Bool.or_eq_true, Bool.and_eq_true, decide_eq_true_eq,
          beq_iff_eq, not_or] at hl2
        rcases List.mem_cons.mp hu with h1 | h1
        · rw [h1]
          omega
        · exact ih u0 hft u h1

/-- A due first timer is serviced: the timer phase delivers it and lets
the loop continue. -/
theorem timerPhase_due_services (o : DeliverOracle) (ext : Bool) (c : Core)
    (t : Nat × Nat) (hft : firstTimer c.timers = some t) (hdue : t.2 ≤ c.now) :
    timerPhase o ext c = TimerPhaseRes.advance (deliverTimerStep o c t) := by
  unfold timerPhase
  simp only [hft]
  rw [if_pos (show c.now ≥ t.2 by omega)]

/-- C1: the selection policy of a dispatcher iteration. A non-paused
iteration with a non-empty high-priority queue selects that queue, and the
first parcel its consume loop hands to a handler is the high queue's head;
the normal queue is selected only when the high queue is empty and the
queues are not paused; while paused neither mailbox is consumed; and a
high-priority post onto a live actor clears the pause immediately. -/
theorem dispatch_selection_policy (o : DeliverOracle) (c : Core) (m : Parcel)
    (s : LoopSt) (fuel : Nat) (rest : List Parcel) (tr : List Parcel) :
    (c.paused = false → c.high ≠ [] →
       iterationSelect c = some WhichQueue.highQ) ∧
    (iterationSelect c = some WhichQueue.normQ →
       c.paused = false ∧ c.high = [] ∧ c.norm ≠ []) ∧
    (c.paused = true → iterationSelect c = none) ∧
    (c.dispatching = true → (postC true c m).paused = false) ∧
    (s.core.high = m :: rest →
       (innerConsume o fuel WhichQueue.highQ s tr).trace = tr ∨
       ∃ l, (innerConsume o fuel WhichQueue.highQ s tr).trace = tr ++ m :: l) := by
  refine ⟨?_, ?_, ?_, ?_, ?_⟩
  · intro hp hh
    obtain ⟨m0, r0, he⟩ := List.exists_cons_of_ne_nil hh
    simp [iterationSelect, hp, he]
  · intro hsel
    unfold iterationSelect at hsel
    by_cases hcond : (!c.paused && (!c.high.isEmpty || !c.norm.isEmpty)) = true
    · rw [if_pos hcond] at hsel
      by_cases hh : (!c.high.isEmpty) = true
      · rw [if_pos hh] at hsel
        exact absurd hsel (by simp)
      · rw [if_neg hh] at hsel
        simp only [Bool.not_eq_true, Bool.not_eq_false] at hh
        have hhigh : c.high = [] := by
          cases hc : c.high with
          | nil => rfl
          | cons a as => rw [hc] at hh; simp at hh
        refine ⟨?_, hhigh, ?_⟩
        · have h1 := (Bool.and_eq_true _ _).mp hcond
          cases hp : c.paused
          · rfl
          · rw [hp] at h1; simp at h1
        · have h1 := (Bool.and_eq_true _ _).mp hcond
          have h2 := h1.2
          rw [hhigh] at h2
          simp at h2
          intro hn
          rw [hn] at h2
          simp at h2
    · rw [if_neg hcond] at hsel
      exact absurd hsel (by simp)
  · intro hp
    simp [iterationSelect, hp]
  · intro hd
    unfold postC
    rw [hd]
    by_cases hw : c.high.isEmpty = true
    · simp [hw]
    · simp [hw]
  · intro hh
    exact innerConsume_high_head o fuel s tr m rest hh

/-- Witness for dispatch_selection_policy at concrete cores: a ready core
selects the high queue and delivers its head first; a normal-selected core
has an empty high queue; a paused core selects nothing until a
high-priority post clears the pause. -/
theorem dispatch_selection_policy_witness :
    iterationSelect highReadyCore = some WhichQueue.highQ ∧
    (iterationSelect normReadyCore = some WhichQueue.normQ →
       normReadyCore.paused = false ∧ normReadyCore.high = [] ∧
       normReadyCore.norm ≠ []) ∧
    iterationSelect pausedRetryCore = none ∧
    (postC true pausedRetryCore 9).paused = false ∧
    ((innerConsume idleOracle 64 WhichQueue.highQ highReadyLoopSt []).trace = [] ∨
       ∃ l, (innerConsume idleOracle 64 WhichQueue.highQ highReadyLoopSt []).trace =
         [] ++ 8 :: l) :=
  ⟨(dispatch_selection_policy idleOracle highReadyCore 8 highReadyLoopSt 64 [9] []).1
     rfl (by decide),
   (dispatch_selection_policy idleOracle normReadyCore 8 highReadyLoopSt 64 [9] []).2.1,
   (dispatch_selection_policy idleOracle pausedRetryCore 8 highReadyLoopSt 64 [9] []).2.2.1
     rfl,
   (dispatch_selection_policy idleOracle pausedRetryCore 9 highReadyLoopSt 64 [9] []).2.2.2.1
     rfl,
   (dispatch_selection_policy idleOracle highReadyCore 8 highReadyLoopSt 64 [9] []).2.2.2.2
     rfl⟩

/-- C8: the external-dispatcher batch contract of handleActorEvents. Under
an external dispatcher a single eventsLoop batch delivers at most 64
mailbox parcels; the loop never ends in a blocking wait; a due first timer
is serviced by the timer phase, which delivers it and continues; and a
rearm request carries the duration from the final clock to the earliest
pending deadline (every other outcome is a cancel request). -/
theorem handleActorEvents_batch_spec (o : DeliverOracle) :
    (∀ (fuel : Nat) (s : LoopSt), s.external = true →
       (eventsLoop o fuel { s with mustDispatch := true } []).trace.length ≤ 64) ∧
    (∀ (fuel : Nat) (s : LoopSt) (tr : List Parcel), s.external = true →
       (eventsLoop o fuel s tr).exit ≠ LoopExit.blockedMsg ∧
       ∀ u, (eventsLoop o fuel s tr).exit ≠ LoopExit.blockedUntil u) ∧
    (∀ (ext : Bool) (c : Core) (t : Nat × Nat), firstTimer c.timers = some t →
       t.2 ≤ c.now →
       timerPhase o ext c = TimerPhaseRes.advance (deliverTimerStep o c t)) ∧
    (∀ (fuel : Nat) (s : LoopSt) (d : Nat),
       handleActorEvents o fuel s = ExtRequest.rearm d →
       ∃ t, firstTimer
           (eventsLoop o fuel { s with mustDispatch := true } []).st.core.timers =
           some t ∧
         (eventsLoop o fuel { s with mustDispatch := true } []).st.core.now < t.2 ∧
         d = t.2 -
           (eventsLoop o fuel { s with mustDispatch := true } []).st.core.now ∧
         ∀ u ∈ (eventsLoop o fuel { s with mustDispatch := true } []).st.core.timers,
           t.2 ≤ u.2) ∧
    (∀ (fuel : Nat) (s : LoopSt),
       (∃ d, handleActorEvents o fuel s = ExtRequest.rearm d) ∨
       handleActorEvents o fuel s = ExtRequest.cancel) := by
  refine ⟨?_, ?_, ?_, ?_, ?_⟩
  · intro fuel s hext
    have h := eventsLoop_budget o fuel { s with mustDispatch := true } [] hext
    unfold loopBudget at h
    rw [if_pos rfl] at h
    have hlt : s.burst % 64 < 64 := Nat.mod_lt _ (by norm_num)
    simp only [List.length_nil] at h
    omega
  · intro fuel s tr hext
    exact eventsLoop_ext_no_block o fuel s tr hext
  · intro ext c t hft hdue
    exact timerPhase_due_services o ext c t hft hdue
  · intro fuel s d h
    have hfin : (eventsLoop o fuel { s with mustDispatch := true } []).exit =
        LoopExit.finished (some d) := by
      unfold handleActorEvents at h
      cases hres : (eventsLoop o fuel { s with mustDispatch := true } []).exit with
      | finished req =>
        cases req with
        | none => rw [hres] at h; simp at h
        | some d2 =>
          rw [hres] at h
          simp at h
          rw [h]
      | blockedMsg => rw [hres] at h; simp at h
      | blockedUntil u => rw [hres] at h; simp at h
      | fuelOut => rw [hres] at h; simp at h
    obtain ⟨t, h1, h2, h3⟩ := eventsLoop_finishedSome_inv o fuel _ [] d hfin
    exact ⟨t, h1, h2, h3, fun u hu => firstTimer_min _ t h1 u hu⟩
  · intro fuel s
    unfold handleActorEvents
    cases hres : (eventsLoop o fuel { s with mustDispatch := true } []).exit with
    | finished req =>
      cases req with
      | none => right; rfl
      | some d2 => left; exact ⟨d2, rfl⟩
    | blockedMsg => right; rfl
    | blockedUntil u => right; rfl
    | fuelOut => right; rfl

/-- Witness for handleActorEvents_batch_spec: a quiescent external actor
with one future timer delivers nothing and asks to be re-armed after the
remaining 40 units; a due timer is serviced. -/
theorem handleActorEvents_batch_spec_witness :
    (eventsLoop idleOracle 3 { timerWaitLoopSt with mustDispatch := true } []).trace.length ≤ 64 ∧
    (eventsLoop idleOracle 3 timerWaitLoopSt []).exit ≠ LoopExit.blockedMsg ∧
    timerPhase idleOracle true dueTimerCore =
      TimerPhaseRes.advance (deliverTimerStep idleOracle dueTimerCore (1, 5)) ∧
    (∃ t, firstTimer
        (eventsLoop idleOracle 3 { timerWaitLoopSt with mustDispatch := true } []).st.core.timers =
        some t ∧
      (eventsLoop idleOracle 3 { timerWaitLoopSt with mustDispatch := true } []).st.core.now < t.2 ∧
      40 = t.2 -
        (eventsLoop idleOracle 3 { timerWaitLoopSt with mustDispatch := true } []).st.core.now ∧
      ∀ u ∈ (eventsLoop idleOracle 3 { timerWaitLoopSt with mustDispatch := true } []).st.core.timers,
        t.2 ≤ u.2) :=
  ⟨(handleActorEvents_batch_spec idleOracle).1 3 timerWaitLoopSt rfl,
   ((handleActorEvents_batch_spec idleOracle).2.1 3 timerWaitLoopSt [] rfl).1,
   (handleActorEvents_batch_spec idleOracle).2.2.1 true dueTimerCore (1, 5) rfl
     (by decide),
   (handleActorEvents_batch_spec idleOracle).2.2.2.1 3 timerWaitLoopSt 40 (by decide)⟩

end ActorThread
